import Mathlib

set_option maxRecDepth 10000

/-!
Shallow embedding of the evolutionary symbolic-regression engine:
`src/evolve/expression/exp_node.rs`, `src/evolve/expression/exp_tree.rs`,
`src/evolve.rs`, `src/evolve/evolution_params.rs`, `src/meta_evolve.rs`.

Floating point.  The source computes with `f32` (`type float = f32`).  We
model an `f32` value as `Fl`: either an exact finite value (`Fl.num q`, a
rational) or a single collapsed non-finite token `Fl.inf` standing for any
of `+inf`, `-inf`, `NaN`.  Arithmetic is exact on finite values; every
concrete constant appearing in a counterexample or witness below is chosen
so that the corresponding `f32` computation is exact at exactly the points
touched, so the model and the source agree there.  Transcendental
operations (`log`, `sin`, `cos`, `powf` off the integer-exponent grid) are
modelled only at the points this development uses, always with the correct
finite/non-finite classification; no universally quantified theorem below
depends on the value of any of these operations, only the closed
counterexamples do, and only at the modelled (hand-checked against IEEE
`f32`) points.

Randomness.  The source draws from `rand::thread_rng()` and from `statrs`
distributions.  We model the generator as an explicit oracle `Rng` of three
streams: `qs` for `gen::<f32>()` draws (values in `[0,1)`), `ns` for
integer draws (`gen_range` offsets, slice-`choose` indices, and geometric
samples, which in `statrs` have support `{1, 2, ...}`, modelled as
`1 + n`), and `cs` for `Normal` samples (finite `f32` values).  Theorems
about the algorithms hold for every oracle; counterexamples pick one.

Panics (`random_expression` with size 0, indexing an empty population) are
modelled by `Option`: `none` is a panic.
-/

/-- Model of an `f32` value: an exact finite rational, or a collapsed
non-finite token (`+inf`/`-inf`/`NaN`). -/
inductive Fl where
  | num (q : ℚ)
  | inf
deriving DecidableEq, Repr

def Fl.isFinite : Fl → Bool
  | .num _ => true
  | .inf => false

def fzero : Fl := .num 0

def fone : Fl := .num 1

/-- `f32` addition.  A non-finite operand yields a non-finite result
(IEEE: `x + NaN = NaN`, `finite + inf = inf`, `inf - inf = NaN`). -/
def fadd : Fl → Fl → Fl
  | .num a, .num b => .num (a + b)
  | _, _ => .inf

/-- `f32` subtraction. -/
def fsub : Fl → Fl → Fl
  | .num a, .num b => .num (a - b)
  | _, _ => .inf

/-- `f32` multiplication.  A non-finite operand yields a non-finite result
(IEEE: `inf * 0 = NaN`, `inf * finite = inf`, `NaN * x = NaN`). -/
def fmul : Fl → Fl → Fl
  | .num a, .num b => .num (a * b)
  | _, _ => .inf

/-- `f32` absolute value (exact). -/
def fabs : Fl → Fl
  | .num a => .num |a|
  | .inf => .inf

/-- Rust `a.powf(b)`, modelled on the integer-exponent grid where the
result is the exact rational power: `powf(0, 0) = 1` (IEEE), and
`powf(0, negative) = +inf` (IEEE).  Fractional exponents and non-finite
operands are outside the modelled domain and map to the non-finite token;
no theorem below uses `fpow` at such a point in a value-relevant way. -/
def fpow : Fl → Fl → Fl
  | .num a, .num b =>
    if b.den = 1 then
      if a = 0 ∧ b.num < 0 then .inf else .num (a ^ b.num)
    else .inf
  | _, _ => .inf

/-- Rust `a.log(b) = a.ln() / b.ln()` (logarithm of `a` in base `b`),
modelled by a table of the points used below, each hand-checked against
`f32`: `4.log(2) = 2` and `2.log(4) = 1/2` exactly (since the `f32`
rounding of `ln 4` is exactly twice that of `ln 2`), and `1.log(1) = 0/0 =
NaN`, which falls to the non-finite default together with every unmodelled
point. -/
def flog : Fl → Fl → Fl
  | .num a, .num b =>
    if a = 4 ∧ b = 2 then .num 2
    else if a = 2 ∧ b = 4 then .num (1 / 2)
    else .inf
  | _, _ => .inf

/-- `f32` sine.  The sine of a finite value is finite, and `sin 0 = 0`
exactly; those are the only facts any theorem below uses, so finite inputs
other than 0 are mapped to an unspecified finite value.  `sin` of a
non-finite value is `NaN`. -/
def fsin : Fl → Fl
  | .num _ => .num 0
  | .inf => .inf

/-- `f32` cosine, same modelling discipline as `fsin`: only the
finite-to-finite classification is ever used. -/
def fcos : Fl → Fl
  | .num _ => .num 0
  | .inf => .inf

/-- `f32` strict `<`: any comparison involving a non-finite token is
`false` (`NaN` comparisons are false; the `-inf < x` cases are unused). -/
def flt : Fl → Fl → Bool
  | .num a, .num b => decide (a < b)
  | _, _ => false

/-- The total order on `f32` used for sorting via `OrderedFloat`:
finite values in numeric order, non-finite greatest (`NaN` is the maximum
of `OrderedFloat`; `-inf` least is unused by this development). -/
def fole : Fl → Fl → Bool
  | .num a, .num b => decide (a ≤ b)
  | .inf, .num _ => false
  | _, .inf => true

/-- `f32` division, used for the meta-fitness mean (`/ 16`, exact). -/
def fdiv : Fl → Fl → Fl
  | .num a, .num b => if b = 0 then .inf else .num (a / b)
  | _, _ => .inf

/-- `f32::EPSILON = 2⁻²³`. -/
def feps : ℚ := 1 / 2 ^ 23

/-- The `approx` crate's `relative_eq!(a, b)` with default f32 epsilons:
equal, or absolute difference at most `f32::EPSILON`, or relative
difference at most `f32::EPSILON`. -/
def relEq (a b : ℚ) : Bool :=
  decide (a = b ∨ |a - b| ≤ feps ∨ |a - b| ≤ feps * max |a| |b|)

/-- `relative_eq!` lifted to the float model.  A non-finite operand gives
`false`; the one divergence (`inf == inf` is true in `approx`) occurs only
in the constant-rounding rule of `simplify`, where both branches produce
the same node, so the behaviour is identical. -/
def relEqFl : Fl → Fl → Bool
  | .num a, .num b => relEq a b
  | _, _ => false

/-- Rust `f32::round`: nearest integer, ties away from zero. -/
def rustRound (q : ℚ) : ℚ :=
  if 0 ≤ q then ((⌊q + 1 / 2⌋ : ℤ) : ℚ) else ((⌈q - 1 / 2⌉ : ℤ) : ℚ)

def froundFl : Fl → Fl
  | .num q => .num (rustRound q)
  | .inf => .inf

/-! ## Expression nodes (`exp_node.rs`)

The source stores a node as an operator tag (`ExpNodeOp`), a `Vec` of
children whose arity is enforced by the constructors' assertions, and
cached `size`/`depth` fields that the constructors compute from the
children (`new_binary`, `new_unary`, `new_nullary`).  We inline the arity
into the inductive and derive `size` recursively, which coincides with the
cached value by the constructor equations. -/

inductive ExpNode where
  | Add (a b : ExpNode)
  | Mul (a b : ExpNode)
  | Exp (a b : ExpNode)
  | Log (a b : ExpNode)
  | Sin (a : ExpNode)
  | Var
  | Const (c : Fl)
deriving DecidableEq, Repr

/-- Total node count; leaves count 1 (the cached `size` field). -/
def ExpNode.size : ExpNode → ℕ
  | .Add a b => a.size + b.size + 1
  | .Mul a b => a.size + b.size + 1
  | .Exp a b => a.size + b.size + 1
  | .Log a b => a.size + b.size + 1
  | .Sin a => a.size + 1
  | .Var => 1
  | .Const _ => 1

/-- `ExpNode::eval`.  `Add`/`Mul` use iterator `sum`/`product`, which fold
from `0.0` / `1.0`; `Exp` is `a.powf(b)`, `Log` is `a.log(b)`, `Sin` is
`a.sin()`.  There is no finiteness substitution anywhere in this
function. -/
def ExpNode.eval : ExpNode → Fl → Fl
  | .Add a b, x => fadd (fadd fzero (a.eval x)) (b.eval x)
  | .Mul a b, x => fmul (fmul fone (a.eval x)) (b.eval x)
  | .Exp a b, x => fpow (a.eval x) (b.eval x)
  | .Log a b, x => flog (a.eval x) (b.eval x)
  | .Sin a, x => fsin (a.eval x)
  | .Var, x => x
  | .Const c, _ => c

/-- `ExpNode::simplify`: simplify children first, then apply the single
rewrite of the matching arm.  Match arms are tried in source order; a
failing `if` guard falls through to the later arms, which is reflected by
the nested `if`s below. -/
def ExpNode.simplify : ExpNode → ExpNode
  | .Add a b =>
    match a.simplify, b.simplify with
    | .Const c1, .Const c2 => .Const (fadd c1 c2)
    | .Const c1, t => if relEqFl c1 (.num 0) then t else .Add (.Const c1) t
    | t, .Const c2 => if relEqFl c2 (.num 0) then t else .Add t (.Const c2)
    | t1, t2 => .Add t1 t2
  | .Mul a b =>
    match a.simplify, b.simplify with
    | .Const c1, .Const c2 => .Const (fmul c1 c2)
    | .Const c1, t => if relEqFl c1 (.num 1) then t else .Mul (.Const c1) t
    | t, .Const c2 => if relEqFl c2 (.num 1) then t else .Mul t (.Const c2)
    | t1, t2 => .Mul t1 t2
  | .Exp a b =>
    match a.simplify, b.simplify with
    | .Const c1, .Const c2 => .Const (fpow c1 c2)
    | t, .Const c2 =>
      if relEqFl c2 (.num 1) then t
      else if relEqFl c2 (.num 0) then .Const (.num 0)
      else .Exp t (.Const c2)
    | t1, t2 => .Exp t1 t2
  | .Log a b =>
    match a.simplify, b.simplify with
    | .Const c1, .Const c2 => .Const (flog c1 c2)
    | t1, t2 => .Log t1 t2
  | .Sin a =>
    match a.simplify with
    | .Const c1 => .Const (fsin c1)
    | t => .Sin t
  | .Var => .Var
  | .Const c => .Const (if relEqFl c (froundFl c) then froundFl c else c)

/-- The payload produced by `simplify` on a `Const` node (round the value
when it is `relative_eq!` to its rounding). -/
def roundConst (c : Fl) : Fl :=
  if relEqFl c (froundFl c) then froundFl c else c

/-- `true` iff the node is a `Const` (the `ExpNodeOp::is_const` test used
by the simplifier's pattern matching). -/
def ExpNode.isConstB : ExpNode → Bool
  | .Const _ => true
  | _ => false

/-- No `Const` occurs anywhere in the tree. -/
def ExpNode.constFree : ExpNode → Bool
  | .Add a b => a.constFree && b.constFree
  | .Mul a b => a.constFree && b.constFree
  | .Exp a b => a.constFree && b.constFree
  | .Log a b => a.constFree && b.constFree
  | .Sin a => a.constFree
  | .Var => true
  | .Const _ => false

/-! ## Expression trees (`exp_tree.rs`) -/

/-- `ExpTree`: a wrapper owning one root node. -/
structure ExpTree where
  root : ExpNode
deriving DecidableEq, Repr

def ExpTree.size (t : ExpTree) : ℕ := t.root.size

/-- `ExpTree::eval`: evaluate the root and replace a non-finite result by
`0.0` — the only finiteness substitution in the evaluation pipeline. -/
def ExpTree.eval (t : ExpTree) (x : Fl) : Fl :=
  let r := t.root.eval x
  if r.isFinite then r else .num 0

/-- `ExpTree::fitness`: sum of absolute residuals (iterator `map`/`map`/
`sum`, the sum folding from `0.0`) plus the node count.  Note: no
`SIZE_LIMIT` check of any kind. -/
def ExpTree.fitness (t : ExpTree) (data : List (Fl × Fl)) : Fl :=
  let accuracy := ((data.map fun s => fsub (t.eval s.1) s.2).map fabs).foldl fadd fzero
  fadd accuracy (.num (t.size : ℚ))

def ExpTree.simplify (t : ExpTree) : ExpTree := ⟨t.root.simplify⟩

/-! ## Spec-side definitions

These definitions follow the specification's words, not the source; each
is compared with the corresponding source-derived definition above. -/

/-- Replace a non-finite value by 0 (the substitution the spec describes). -/
def sub0 (v : Fl) : Fl := if v.isFinite then v else .num 0

/-- Modelled from the spec (claim C2): evaluation in which "any
sub-evaluation producing a non-finite value is replaced by 0 at the node
that produced it". -/
def specEvalNode : ExpNode → Fl → Fl
  | .Add a b, x => sub0 (fadd (fadd fzero (specEvalNode a x)) (specEvalNode b x))
  | .Mul a b, x => sub0 (fmul (fmul fone (specEvalNode a x)) (specEvalNode b x))
  | .Exp a b, x => sub0 (fpow (specEvalNode a x) (specEvalNode b x))
  | .Log a b, x => sub0 (flog (specEvalNode a x) (specEvalNode b x))
  | .Sin a, x => sub0 (fsin (specEvalNode a x))
  | .Var, x => sub0 x
  | .Const c, _ => sub0 c

/-- Modelled from the spec (claim C2): tree evaluation with per-node
substitution "and with 0 at the tree boundary". -/
def specEvalTree (t : ExpTree) (x : Fl) : Fl := sub0 (specEvalNode t.root x)

/-- The spec's residual sum `Σᵢ |eval(xᵢ) − yᵢ|` (folded left over the
samples, starting from 0, as an iterator sum does). -/
def residualSum (t : ExpTree) (data : List (Fl × Fl)) : Fl :=
  data.foldl (fun acc s => fadd acc (fabs (fsub (t.eval s.1) s.2))) fzero

/-- Modelled from the spec (claim C5): the claimed evaluation of
`Log(a, b)` as `logₐ(b) = ln(eval b) / ln(eval a)`, i.e. Rust
`(eval b).log(eval a)`. -/
def specLogEval (a b : ExpNode) (x : Fl) : Fl :=
  flog (b.eval x) (a.eval x)

/-- `f32::MAX = 2¹²⁸ − 2¹⁰⁴` ("largest finite float"). -/
def f32max : ℚ := 2 ^ 128 - 2 ^ 104

/-- A chain `Sin(Sin(...Sin(Const 0)...))` with `n` applications of
`Sin`; its size is `n + 1`, and it evaluates to 0 everywhere (exactly, in
`f32` too, since `sin 0 = 0`). -/
def sinChain : ℕ → ExpNode
  | 0 => .Const (.num 0)
  | n + 1 => .Sin (sinChain n)

/-! ## Inner hyperparameters (`evolution_params.rs`) -/

/-- `EvolutionParams`: the ten `f32` hyperparameter fields. -/
structure EvolutionParams where
  population_num : ℚ
  new_const_mean : ℚ
  new_const_std : ℚ
  new_random_expression_prob : ℚ
  repeated_mutation_rate : ℚ
  random_expression_insert_rate : ℚ
  mutate_replace_rate : ℚ
  const_mutation_prob : ℚ
  const_jitter_factor : ℚ
  binary_switch_prob : ℚ
deriving DecidableEq, Repr

/-- `EvolutionParams::is_valid` (note: the code accepts `new_const_std = 0`
because it uses the inclusive range `(0.0..)`). -/
def EvolutionParams.is_valid (p : EvolutionParams) : Bool :=
  decide (1 ≤ p.population_num) &&
  decide (0 ≤ p.new_const_std) &&
  (decide (0 < p.new_random_expression_prob) && decide (p.new_random_expression_prob ≤ 1)) &&
  decide (1 < p.repeated_mutation_rate) &&
  decide (1 < p.random_expression_insert_rate) &&
  decide (1 < p.mutate_replace_rate) &&
  (decide (0 < p.const_mutation_prob) && decide (p.const_mutation_prob ≤ 1)) &&
  decide (1 ≤ p.const_jitter_factor) &&
  (decide (0 ≤ p.binary_switch_prob) && decide (p.binary_switch_prob ≤ 1))

/-! ## The random oracle

`rand::thread_rng()` and the `statrs` distributions are modelled by an
explicit oracle holding three streams of pre-drawn values; an exhausted
stream yields a default, and a `qs` entry outside `[0, 1)` (which
`gen::<f32>()` cannot produce) is replaced by 0. -/

structure Rng where
  qs : List ℚ
  ns : List ℕ
  cs : List ℚ
deriving DecidableEq, Repr

/-- Draw a `gen::<f32>()` uniform sample from `[0, 1)`. -/
def Rng.qpop (r : Rng) : ℚ × Rng :=
  match r.qs with
  | [] => (0, r)
  | q :: rest => (if 0 ≤ q ∧ q < 1 then q else 0, ⟨rest, r.ns, r.cs⟩)

/-- Draw an unconstrained integer sample (`gen_range` offsets,
slice-`choose` indices, geometric samples). -/
def Rng.npop (r : Rng) : ℕ × Rng :=
  match r.ns with
  | [] => (0, r)
  | n :: rest => (n, ⟨r.qs, rest, r.cs⟩)

/-- Draw a finite `Normal` sample (`f32` cast of the `f64` sample). -/
def Rng.cpop (r : Rng) : ℚ × Rng :=
  match r.cs with
  | [] => (0, r)
  | c :: rest => (c, ⟨r.qs, r.ns, rest⟩)

/-! ## `random_expression` (`exp_node.rs`)

`size` is first capped at `SIZE_LIMIT = 512`.  For `size = 0` the function
panics ("invalid size for new expression"), modelled as `none`.  For
`size = 1` the options are `[Var, Const(Normal sample)]`; for `size = 2`
only the unary option `Sin`; for `size ≥ 3` the options are
`[Sin, Add, Mul, Exp, Log]` (`UNARY_OPTS` extended before `BINARY_OPTS`).
`slice::choose` draws an index (modelled `k % len`); a binary option draws
`d = gen_range(2, s)` (modelled `2 + m % (s - 2)`) and recurses with child
sizes `d - 1` and `s - d`. -/
def randomExpression (size : ℕ) (p : EvolutionParams) (rng : Rng) :
    Option (ExpNode × Rng) :=
  let s := min size 512
  if _h0 : s = 0 then none
  else if _h1 : s = 1 then
    let (k, rng1) := rng.npop
    if k % 2 = 0 then some (.Var, rng1)
    else
      let (c, rng2) := rng1.cpop
      some (.Const (.num c), rng2)
  else if _h2 : s = 2 then
    let (_, rng1) := rng.npop
    match randomExpression (s - 1) p rng1 with
    | none => none
    | some (a, rng2) => some (.Sin a, rng2)
  else
    let (k, rng1) := rng.npop
    if k % 5 = 0 then
      match randomExpression (s - 1) p rng1 with
      | none => none
      | some (a, rng2) => some (.Sin a, rng2)
    else
      let (m, rng2) := rng1.npop
      let d := 2 + m % (s - 2)
      match randomExpression (d - 1) p rng2 with
      | none => none
      | some (a, rng3) =>
        match randomExpression (s - d) p rng3 with
        | none => none
        | some (b, rng4) =>
          if k % 5 = 1 then some (.Add a b, rng4)
          else if k % 5 = 2 then some (.Mul a b, rng4)
          else if k % 5 = 3 then some (.Exp a b, rng4)
          else some (.Log a b, rng4)
  termination_by size
  decreasing_by
  · omega
  · omega
  · have hm : m % (min size 512 - 2) < min size 512 - 2 := Nat.mod_lt _ (by omega)
    omega
  · have hm : m % (min size 512 - 2) < min size 512 - 2 := Nat.mod_lt _ (by omega)
    omega
/-! ## `mutate` and `jitter` (`exp_node.rs`)

Both take the enclosing tree (used only for its size) alongside the node.
`mutate` first tests `tree.size() < SIZE_LIMIT` and only then draws
(short-circuit `&&`); on replacement it draws a geometric sample with
success probability `1/(size+1)` (support `{1, 2, ...}`, modelled
`g + 1`), clamps it to `SIZE_LIMIT - self.size()`, and builds a random
expression of that size.  `jitter` rebuilds the node, recursing into the
children with `mutate`; for `Exp`/`Log` it swaps the children with
probability `binary_switch_prob` (the swapped second child is mutated
first, matching Rust's left-to-right argument evaluation); a `Const`
jitters with probability `const_mutation_prob` by adding a `Normal`
sample. -/
mutual

def ExpNode.mutate (n : ExpNode) (treeSize : ℕ) (p : EvolutionParams)
    (rng : Rng) : Option (ExpNode × Rng) :=
  if treeSize < 512 then
    let (u, rng1) := rng.qpop
    if u < (p.mutate_replace_rate ^ n.size)⁻¹ then
      let (g, rng2) := rng1.npop
      randomExpression (min (g + 1) (512 - n.size)) p rng2
    else n.jitter treeSize p rng1
  else n.jitter treeSize p rng
  termination_by (n.size, 1)

def ExpNode.jitter (n : ExpNode) (treeSize : ℕ) (p : EvolutionParams)
    (rng : Rng) : Option (ExpNode × Rng) :=
  match n with
  | .Add a b =>
    match a.mutate treeSize p rng with
    | none => none
    | some (a2, rng1) =>
      match b.mutate treeSize p rng1 with
      | none => none
      | some (b2, rng2) => some (.Add a2 b2, rng2)
  | .Mul a b =>
    match a.mutate treeSize p rng with
    | none => none
    | some (a2, rng1) =>
      match b.mutate treeSize p rng1 with
      | none => none
      | some (b2, rng2) => some (.Mul a2 b2, rng2)
  | .Exp a b =>
    let (u, rng1) := rng.qpop
    if u < p.binary_switch_prob then
      match b.mutate treeSize p rng1 with
      | none => none
      | some (b2, rng2) =>
        match a.mutate treeSize p rng2 with
        | none => none
        | some (a2, rng3) => some (.Exp b2 a2, rng3)
    else
      match a.mutate treeSize p rng1 with
      | none => none
      | some (a2, rng2) =>
        match b.mutate treeSize p rng2 with
        | none => none
        | some (b2, rng3) => some (.Exp a2 b2, rng3)
  | .Log a b =>
    let (u, rng1) := rng.qpop
    if u < p.binary_switch_prob then
      match b.mutate treeSize p rng1 with
      | none => none
      | some (b2, rng2) =>
        match a.mutate treeSize p rng2 with
        | none => none
        | some (a2, rng3) => some (.Log b2 a2, rng3)
    else
      match a.mutate treeSize p rng1 with
      | none => none
      | some (a2, rng2) =>
        match b.mutate treeSize p rng2 with
        | none => none
        | some (b2, rng3) => some (.Log a2 b2, rng3)
  | .Sin a =>
    match a.mutate treeSize p rng with
    | none => none
    | some (a2, rng1) => some (.Sin a2, rng1)
  | .Var => some (.Var, rng)
  | .Const c =>
    let (u, rng1) := rng.qpop
    if u < p.const_mutation_prob then
      let (d, rng2) := rng1.cpop
      some (.Const (fadd c (.num d)), rng2)
    else some (.Const c, rng1)
  termination_by (n.size, 0)
  decreasing_by all_goals (simp [ExpNode.size]; omega)

end

/-- `ExpTree::mutate`: mutate the root, passing the tree itself (so the
size-gate and replacement budget see the root's own size). -/
def ExpTree.mutate (t : ExpTree) (p : EvolutionParams) (rng : Rng) :
    Option (ExpTree × Rng) :=
  match t.root.mutate t.size p rng with
  | none => none
  | some (n, rng1) => some (⟨n⟩, rng1)

/-! ## The inner evolver (`evolve.rs`)

One generation (`Evolve::step`, one pass of the `for _c` loop): start the
new population with the old best; run the `'newloop` until the new
population reaches the old size, alternating a mutation sweep and a
random-insertion sweep; simplify every member; sort by
`OrderedFloat(fitness)`; update `iters_to_best` when the new best's
fitness is strictly below the old best's; increment the counter.

The `'newloop` is modelled with explicit fuel; the progress lemma below
shows fuel `pop.length` always suffices (the index-0 slot of a mutation
sweep fires with probability `(N-0)/N = 1`, and `gen::<f32>() < 1.0`
always holds), so the `none` (fuel exhausted) branch is unreachable. -/

/-- Placeholder tree for the guarded list indexing (`pop[i]` with
`i < pop.len()` in the source); never reached with the index in bounds. -/
def dfltTree : ExpTree := ⟨.Var⟩

/-- `params.population_num.round() as usize`: `f32::round` (ties away from
zero) followed by the saturating float-to-usize cast. -/
def natRound (q : ℚ) : ℕ := (rustRound q).num.toNat

structure Evolve where
  pop : List ExpTree
  data : List (Fl × Fl)
  params : EvolutionParams
  total_iterations : ℕ
  iters_to_best : ℕ
deriving Repr

/-- `sort_by_cached_key(|e| OrderedFloat(e.fitness(&data)))`: a stable
sort on the `OrderedFloat` total order of the cached fitness key.  A
stable sort's output is uniquely determined by the key order, so any
stable sort models it; insertion sort is used because it evaluates by
kernel reduction. -/
def sortPop (l : List ExpTree) (data : List (Fl × Fl)) : List ExpTree :=
  l.insertionSort fun a b => fole (a.fitness data) (b.fitness data) = true

/-- The inner `for j in 0..N` mutation run seeded by one parent: the first
mutation is unconditional (`j == 0 ||` short-circuits the draw), each
later one only happens while `gen::<f32>() < repeated_mutation_rate^(-i)`;
every mutant is pushed, and reaching `N` breaks the whole `'newloop`
(the `Bool` in the result). -/
def mutRun (p : EvolutionParams) (parent : ExpTree) (thr : ℚ) (N : ℕ) :
    ℕ → List ExpTree → Rng → Bool → Option (List ExpTree × Rng × Bool)
  | 0, acc, rng, _ => some (acc, rng, false)
  | j + 1, acc, rng, first =>
    let (c, rng1) := if first then (true, rng) else
      let (u, r) := rng.qpop
      (decide (u < thr), r)
    if c then
      match parent.mutate p rng1 with
      | none => none
      | some (m, rng2) =>
        let acc2 := acc ++ [m]
        if acc2.length = N then some (acc2, rng2, true)
        else mutRun p parent thr N j acc2 rng2 false
    else some (acc, rng1, false)

/-- The mutation sweep `for i in 0..N`: with probability `(N - i)/N` start
a mutation run seeded by `pop[i]`.  `iLeft` counts the remaining indices,
so the current index is `N - iLeft`. -/
def mutSweep (p : EvolutionParams) (pop : List ExpTree) (N : ℕ) :
    ℕ → List ExpTree → Rng → Option (List ExpTree × Rng × Bool)
  | 0, acc, rng => some (acc, rng, false)
  | iLeft + 1, acc, rng =>
    let i := N - (iLeft + 1)
    let (u, rng1) := rng.qpop
    if u < ((N - i : ℕ) : ℚ) / (N : ℚ) then
      match mutRun p (pop.getD i dfltTree) ((p.repeated_mutation_rate ^ i)⁻¹) N N acc rng1 true with
      | none => none
      | some (acc2, rng2, true) => some (acc2, rng2, true)
      | some (acc2, rng2, false) => mutSweep p pop N iLeft acc2 rng2
    else mutSweep p pop N iLeft acc rng1

/-- The random-insertion sweep `for i in 0..N`: with probability
`random_expression_insert_rate^(-i)` push one fresh random tree whose
size is a geometric sample (support `{1, 2, ...}`). -/
def insSweep (p : EvolutionParams) (N : ℕ) :
    ℕ → List ExpTree → Rng → Option (List ExpTree × Rng × Bool)
  | 0, acc, rng => some (acc, rng, false)
  | iLeft + 1, acc, rng =>
    let i := N - (iLeft + 1)
    let (u, rng1) := rng.qpop
    if u < ((p.random_expression_insert_rate ^ i)⁻¹ : ℚ) then
      let (g, rng2) := rng1.npop
      match randomExpression (g + 1) p rng2 with
      | none => none
      | some (t, rng3) =>
        let acc2 := acc ++ [(⟨t⟩ : ExpTree)]
        if acc2.length = N then some (acc2, rng3, true)
        else insSweep p N iLeft acc2 rng3
    else insSweep p N iLeft acc rng1

/-- The `'newloop`: while the new population is smaller than the old one,
run a mutation sweep and then an insertion sweep; a `true` flag is the
`break 'newloop`. -/
def fillLoop (p : EvolutionParams) (pop : List ExpTree) (N : ℕ) :
    ℕ → List ExpTree → Rng → Option (List ExpTree × Rng)
  | 0, _, _ => none
  | fuel + 1, acc, rng =>
    if N ≤ acc.length then some (acc, rng)
    else
      match mutSweep p pop N N acc rng with
      | none => none
      | some (acc1, rng1, true) => some (acc1, rng1)
      | some (acc1, rng1, false) =>
        match insSweep p N N acc1 rng1 with
        | none => none
        | some (acc2, rng2, true) => some (acc2, rng2)
        | some (acc2, rng2, false) => fillLoop p pop N fuel acc2 rng2

/-- One iteration of `Evolve::step`.  An empty population panics on
`self.pop[0]` (`none`). -/
def stepOnce (e : Evolve) (rng : Rng) : Option (Evolve × Rng) :=
  match e.pop with
  | [] => none
  | best :: _ =>
    let N := e.pop.length
    match fillLoop e.params e.pop N N [best] rng with
    | none => none
    | some (filled, rng1) =>
      let simped := filled.map ExpTree.simplify
      let sorted := sortPop simped e.data
      let newFit := (sorted.headD dfltTree).fitness e.data
      let oldFit := best.fitness e.data
      some ({ e with
                pop := sorted
                iters_to_best :=
                  if flt newFit oldFit then e.total_iterations else e.iters_to_best
                total_iterations := e.total_iterations + 1 }, rng1)

/-- `Evolve::step(iterations)`: iterate `stepOnce`. -/
def stepN : ℕ → Evolve → Rng → Option (Evolve × Rng)
  | 0, e, rng => some (e, rng)
  | k + 1, e, rng =>
    match stepOnce e rng with
    | none => none
    | some (e1, rng1) => stepN k e1 rng1

/-- The population built by `Evolve::new`: for each slot draw a geometric
size, build a random expression of that size, and simplify it. -/
def buildPop (p : EvolutionParams) : ℕ → Rng → Option (List ExpTree × Rng)
  | 0, rng => some ([], rng)
  | k + 1, rng =>
    let (g, rng1) := rng.npop
    match randomExpression (g + 1) p rng1 with
    | none => none
    | some (t, rng2) =>
      match buildPop p k rng2 with
      | none => none
      | some (rest, rng3) => some ((⟨t⟩ : ExpTree).simplify :: rest, rng3)

/-- `Evolve::new(data, Some(params))`: build `population_num.round()`
random simplified trees, sort them by fitness. -/
def evolveNew (data : List (Fl × Fl)) (p : EvolutionParams) (rng : Rng) :
    Option (Evolve × Rng) :=
  match buildPop p (natRound p.population_num) rng with
  | none => none
  | some (pop, rng1) =>
    some ({ pop := sortPop pop data, data := data, params := p
            total_iterations := 0, iters_to_best := 0 }, rng1)

/-- `Evolve::best_fitness`: `self.pop[0].fitness(&self.data)` (the
out-of-bounds panic on an empty population is unreachable in every use
below). -/
def Evolve.best_fitness (e : Evolve) : Fl := (e.pop.headD dfltTree).fitness e.data

/-! ## The meta layer (`meta_evolve.rs`) -/

/-- The fixed benchmark target functions, in source order:
`2x² − 3x³`, `cos x + 1`, `3^x`, `x² − x − 1` (with the source's exact
association: `2.0*x*x`, `3.0*x*x*x`, etc.). -/
def FUNCTIONS : List (Fl → Fl) :=
  [ fun x => fsub (fmul (fmul (.num 2) x) x) (fmul (fmul (fmul (.num 3) x) x) x)
  , fun x => fadd (fcos x) (.num 1)
  , fun x => fpow (.num 3) x
  , fun x => fsub (fsub (fmul x x) x) (.num 1) ]

def RUNS_PER_FUNCTION : ℕ := 4

/-- The integer sample points `-5..=5`. -/
def metaXs : List ℚ := [-5, -4, -3, -2, -1, 0, 1, 2, 3, 4, 5]

/-- The sample set the source builds for one target:
`(-5..=5).map(|i| [i as float, f(i as float)])` — no finiteness check. -/
def sampleDataOf (f : Fl → Fl) : List (Fl × Fl) :=
  metaXs.map fun i => (.num i, f (.num i))

/-- Modelled from the spec (claim C9): the sample set as the spec
describes it, "substituting 0 for non-finite values" of the target. -/
def specSampleDataOf (f : Fl → Fl) : List (Fl × Fl) :=
  metaXs.map fun i => (.num i, sub0 (f (.num i)))

/-- One `(function, run)` pair's score: a fresh inner evolver over the
given samples with the entity's params, stepped 50 000 generations, scored
`best_fitness * 10_000 + iters_to_best`. -/
def runScoreWith (data : List (Fl × Fl)) (p : EvolutionParams) (rng : Rng) :
    Option (Fl × Rng) :=
  match evolveNew data p rng with
  | none => none
  | some (e, rng1) =>
    match stepN 50000 e rng1 with
    | none => none
    | some (e2, rng2) =>
      some (fadd (fmul e2.best_fitness (.num 10000)) (.num (e2.iters_to_best : ℚ)), rng2)

/-- Sum the scores of a list of `(function, run)` pairs (iterator
`sum::<float>()`, folding from `0.0`), building each pair's sample set
with `dataOf`. -/
def scoreSumWith (dataOf : (Fl → Fl) → List (Fl × Fl)) (p : EvolutionParams) :
    List (Fl → Fl) → Fl → Rng → Option (Fl × Rng)
  | [], acc, rng => some (acc, rng)
  | f :: fs, acc, rng =>
    match runScoreWith (dataOf f) p rng with
    | none => none
    | some (v, rng1) => scoreSumWith dataOf p fs (fadd acc v) rng1

/-- `FUNCTIONS.iter().flat_map(|f| (0..RUNS_PER_FUNCTION).map(move |_| f))`. -/
def runsList : List (Fl → Fl) :=
  FUNCTIONS.flatMap fun f => List.replicate RUNS_PER_FUNCTION f

/-- `MetaEntity::calculate_fitness`: the summed scores over all
`(function, run)` pairs divided by `FUNCTIONS.len() * RUNS_PER_FUNCTION`. -/
def MetaEntity.calculate_fitness (p : EvolutionParams) (rng : Rng) :
    Option (Fl × Rng) :=
  match scoreSumWith sampleDataOf p runsList fzero rng with
  | none => none
  | some (s, rng1) =>
    some (fdiv s (.num ((FUNCTIONS.length * RUNS_PER_FUNCTION : ℕ) : ℚ)), rng1)

/-- Modelled from the spec (claim C9): the meta fitness as the spec
describes it — identical pipeline, but each pair's sample set substitutes
0 for non-finite target values. -/
def specMetaFitness (p : EvolutionParams) (rng : Rng) : Option (Fl × Rng) :=
  match scoreSumWith specSampleDataOf p runsList fzero rng with
  | none => none
  | some (s, rng1) =>
    some (fdiv s (.num ((FUNCTIONS.length * RUNS_PER_FUNCTION : ℕ) : ℚ)), rng1)

/-! ## Concrete instances used by counterexamples and witnesses -/

/-- The `Sin`-chain `randomExpression` produces when every integer draw
defaults to 0 (option index 0 is `Sin`; at size 1, nullary index 0 is
`Var`): `Sin^(s-1)(Var)`. -/
def sinDefault : ℕ → ExpNode
  | 0 => .Var
  | 1 => .Var
  | n + 2 => .Sin (sinDefault (n + 1))

/-- Valid parameters with a rounded population of 2 (the other fields are
the source defaults, with the probabilities as exact rationals). -/
def paramsC3 : EvolutionParams :=
  ⟨2, 0, 2, 1/10, 3/2, 3, 3, 1/100, 3, 1/100⟩

/-- One sample `(0, 1 + 2⁻²³)`; both coordinates are exact `f32` values. -/
def dataC3 : List (Fl × Fl) := [(.num 0, .num (1 + 1/2^23))]

/-- Oracle for `Evolve::new` with `paramsC3`: each of the two slots draws
geometric size `3` (`1 + 2`), picks the `Add` option (index 1), range draw
`d = 2`, and two `Const` leaves `1/2` and `1/2 + 2⁻²³` (all exact `f32`
values, with an exactly representable `f32` sum). -/
def rngC3new : Rng :=
  ⟨[], [2, 1, 0, 1, 1, 2, 1, 0, 1, 1], [1/2, 1/2 + 1/2^23, 1/2, 1/2 + 1/2^23]⟩

/-- Oracle for the subsequent `stepOnce`: the `i = 0` sweep slot fires
(`0 < 1`), the elite's mutation draws `3/4 ≥ (3/2)⁻¹` (no replacement) and
`1/2 ≥ 1/100` (no constant jitter). -/
def rngC3step : Rng := ⟨[0, 3/4, 1/2], [], []⟩

/-- Valid parameters with `mutate_replace_rate = 2`. -/
def paramsC4 : EvolutionParams :=
  ⟨2, 0, 2, 1/10, 3/2, 3, 2, 1/100, 3, 1/100⟩

/-- The 3-node starting tree `Var + Var`. -/
def treeC4 : ExpNode := .Add .Var .Var

/-- Oracle for mutating `treeC4`: the root draws `1/2 ≥ 2⁻³` (no
root replacement, so jitter), the first `Var` child draws `0 < 2⁻¹`
(replacement) with geometric sample `511` (`1 + 510`), and the second
`Var` child draws `1/2 ≥ 2⁻¹` (no replacement). -/
def rngC4 : Rng := ⟨[1/2, 0, 1/2], [510], []⟩


/-! ## Helper lemmas -/

theorem ExpNode.size_pos (t : ExpNode) : 1 ≤ t.size := by
  cases t <;> simp [ExpNode.size]

theorem ExpNode.simplify_Const (c : Fl) :
    (ExpNode.Const c).simplify = .Const (roundConst c) := rfl

theorem ExpNode.simplify_size_le (t : ExpNode) : t.simplify.size ≤ t.size := by
  induction t with
  | Add a b ha hb =>
    have pa := a.size_pos
    simp only [ExpNode.simplify]
    cases h1 : a.simplify <;> cases h2 : b.simplify <;>
      rw [h1] at ha <;> rw [h2] at hb <;> dsimp only <;>
      (try split) <;>
      simp only [ExpNode.size] at ha hb ⊢ <;> omega
  | Mul a b ha hb =>
    have pa := a.size_pos
    simp only [ExpNode.simplify]
    cases h1 : a.simplify <;> cases h2 : b.simplify <;>
      rw [h1] at ha <;> rw [h2] at hb <;> dsimp only <;>
      (try split) <;>
      simp only [ExpNode.size] at ha hb ⊢ <;> omega
  | Exp a b ha hb =>
    have pa := a.size_pos
    simp only [ExpNode.simplify]
    cases h1 : a.simplify <;> cases h2 : b.simplify <;>
      rw [h1] at ha <;> rw [h2] at hb <;> dsimp only <;>
      (try split) <;> (try split) <;>
      simp only [ExpNode.size] at ha hb ⊢ <;> omega
  | Log a b ha hb =>
    simp only [ExpNode.simplify]
    cases h1 : a.simplify <;> cases h2 : b.simplify <;>
      rw [h1] at ha <;> rw [h2] at hb <;> dsimp only <;>
      simp only [ExpNode.size] at ha hb ⊢ <;> omega
  | Sin a ha =>
    simp only [ExpNode.simplify]
    cases h1 : a.simplify <;>
      rw [h1] at ha <;> dsimp only <;>
      simp only [ExpNode.size] at ha ⊢ <;> omega
  | Var => simp [ExpNode.simplify, ExpNode.size]
  | Const c => simp [ExpNode.simplify, ExpNode.size]

theorem ExpNode.simplify_constFree_id (t : ExpNode) (h : t.constFree = true) :
    t.simplify = t := by
  induction t with
  | Add a b ha hb =>
    simp only [ExpNode.constFree, Bool.and_eq_true] at h
    simp only [ExpNode.simplify, ha h.1, hb h.2]
    cases a <;> cases b <;> simp_all [ExpNode.constFree]
  | Mul a b ha hb =>
    simp only [ExpNode.constFree, Bool.and_eq_true] at h
    simp only [ExpNode.simplify, ha h.1, hb h.2]
    cases a <;> cases b <;> simp_all [ExpNode.constFree]
  | Exp a b ha hb =>
    simp only [ExpNode.constFree, Bool.and_eq_true] at h
    simp only [ExpNode.simplify, ha h.1, hb h.2]
    cases a <;> cases b <;> simp_all [ExpNode.constFree]
  | Log a b ha hb =>
    simp only [ExpNode.constFree, Bool.and_eq_true] at h
    simp only [ExpNode.simplify, ha h.1, hb h.2]
    cases a <;> cases b <;> simp_all [ExpNode.constFree]
  | Sin a ha =>
    simp only [ExpNode.constFree] at h
    simp only [ExpNode.simplify, ha h]
    cases a <;> simp_all [ExpNode.constFree]
  | Var => rfl
  | Const c => simp [ExpNode.constFree] at h

theorem sinChain_size (n : ℕ) : (sinChain n).size = n + 1 := by
  induction n with
  | zero => rfl
  | succ n ih => simp [sinChain, ExpNode.size, ih]

theorem sinChain_eval (n : ℕ) : (sinChain n).eval (.num 0) = .num 0 := by
  induction n with
  | zero => rfl
  | succ n ih => simp [sinChain, ExpNode.eval, ih, fsin]

theorem qpop_bounds (rng : Rng) : 0 ≤ rng.qpop.1 ∧ rng.qpop.1 < 1 := by
  rcases hq : rng.qs with _ | ⟨q, rest⟩
  · simp [Rng.qpop, hq]
  · simp only [Rng.qpop, hq]
    split
    · next hin => exact hin
    · norm_num

theorem randomExpression_spec :
    ∀ (s : ℕ), 1 ≤ s → ∀ (p : EvolutionParams) (rng : Rng),
      ∃ t rng2, randomExpression s p rng = some (t, rng2) ∧ t.size = min s 512 := by
  intro s
  induction s using Nat.strong_induction_on with
  | _ s ih =>
    intro hs p rng
    have h512 : 1 ≤ min s 512 := le_min hs (by norm_num)
    have h0ne : ¬ (min s 512 = 0) := by omega
    rw [randomExpression]
    by_cases h1 : min s 512 = 1
    · simp only [dif_neg h0ne, dif_pos h1]
      rcases hnp : rng.npop with ⟨k, rng1⟩
      simp only [hnp]
      by_cases hk : k % 2 = 0
      · exact ⟨.Var, rng1, by simp [hk], by simp [ExpNode.size, h1]⟩
      · rcases hcp : rng1.cpop with ⟨c, rng2⟩
        exact ⟨.Const (.num c), rng2, by simp [hk, hcp], by simp [ExpNode.size, h1]⟩
    · by_cases h2 : min s 512 = 2
      · simp only [dif_neg h0ne, dif_neg h1, dif_pos h2]
        rcases hnp : rng.npop with ⟨k, rng1⟩
        simp only [hnp]
        obtain ⟨t1, rng2, heq, hsz⟩ := ih (min s 512 - 1) (by omega) (by omega) p rng1
        rw [h2] at heq hsz
        norm_num at heq hsz
        simp only [h2, heq]
        exact ⟨.Sin t1, rng2, rfl, by simp [ExpNode.size, hsz, h2]⟩
      · have h3 : 3 ≤ min s 512 := by omega
        simp only [dif_neg h0ne, dif_neg h1, dif_neg h2]
        rcases hnp : rng.npop with ⟨k, rng1⟩
        simp only [hnp]
        by_cases hk : k % 5 = 0
        · obtain ⟨t1, rng2, heq, hsz⟩ := ih (min s 512 - 1) (by omega) (by omega) p rng1
          have : min (min s 512 - 1) 512 = min s 512 - 1 := by omega
          rw [this] at hsz
          simp only [hk, if_pos, heq]
          refine ⟨.Sin t1, rng2, by simp, ?_⟩
          simp [ExpNode.size, hsz]
          omega
        · rcases hmp : rng1.npop with ⟨m, rng2⟩
          simp only [if_neg hk, hmp]
          have hmod : m % (min s 512 - 2) < min s 512 - 2 := Nat.mod_lt _ (by omega)
          obtain ⟨ta, rng3, heqa, hsza⟩ :=
            ih (2 + m % (min s 512 - 2) - 1) (by omega) (by omega) p rng2
          obtain ⟨tb, rng4, heqb, hszb⟩ :=
            ih (min s 512 - (2 + m % (min s 512 - 2))) (by omega) (by omega) p rng3
          have hma : min (2 + m % (min s 512 - 2) - 1) 512 = 2 + m % (min s 512 - 2) - 1 := by
            omega
          have hmb : min (min s 512 - (2 + m % (min s 512 - 2))) 512
              = min s 512 - (2 + m % (min s 512 - 2)) := by omega
          rw [hma] at hsza
          rw [hmb] at hszb
          simp only [heqa, heqb]
          split_ifs with hk1 hk2 hk3
          · exact ⟨.Add ta tb, rng4, rfl, by simp [ExpNode.size, hsza, hszb]; omega⟩
          · exact ⟨.Mul ta tb, rng4, rfl, by simp [ExpNode.size, hsza, hszb]; omega⟩
          · exact ⟨.Exp ta tb, rng4, rfl, by simp [ExpNode.size, hsza, hszb]; omega⟩
          · exact ⟨.Log ta tb, rng4, rfl, by simp [ExpNode.size, hsza, hszb]; omega⟩

theorem mutate_jitter_isSome :
    ∀ (k : ℕ) (n : ExpNode), n.size ≤ k →
      ∀ (ts : ℕ), n.size ≤ ts → ∀ (p : EvolutionParams) (rng : Rng),
        (∃ r, ExpNode.jitter n ts p rng = some r) ∧
        (∃ r, ExpNode.mutate n ts p rng = some r) := by
  intro k
  induction k with
  | zero =>
    intro n hn
    have := n.size_pos
    omega
  | succ k ih =>
    intro n hn ts hts p rng
    have hjit : ∀ rng', ∃ r, ExpNode.jitter n ts p rng' = some r := by
      intro rng'
      cases n with
      | Add a b =>
        simp only [ExpNode.size] at hn hts
        rw [ExpNode.jitter]
        obtain ⟨⟨a2, rnga⟩, hma⟩ := (ih a (by omega) ts (by omega) p rng').2
        simp only [hma]
        obtain ⟨⟨b2, rngb⟩, hmb⟩ := (ih b (by omega) ts (by omega) p rnga).2
        simp only [hmb]
        exact ⟨_, rfl⟩
      | Mul a b =>
        simp only [ExpNode.size] at hn hts
        rw [ExpNode.jitter]
        obtain ⟨⟨a2, rnga⟩, hma⟩ := (ih a (by omega) ts (by omega) p rng').2
        simp only [hma]
        obtain ⟨⟨b2, rngb⟩, hmb⟩ := (ih b (by omega) ts (by omega) p rnga).2
        simp only [hmb]
        exact ⟨_, rfl⟩
      | Exp a b =>
        simp only [ExpNode.size] at hn hts
        rw [ExpNode.jitter]
        rcases hq : rng'.qpop with ⟨u, rng1⟩
        simp only [hq]
        by_cases hsw : u < p.binary_switch_prob
        · simp only [if_pos hsw]
          obtain ⟨⟨b2, rngb⟩, hmb⟩ := (ih b (by omega) ts (by omega) p rng1).2
          simp only [hmb]
          obtain ⟨⟨a2, rnga⟩, hma⟩ := (ih a (by omega) ts (by omega) p rngb).2
          simp only [hma]
          exact ⟨_, rfl⟩
        · simp only [if_neg hsw]
          obtain ⟨⟨a2, rnga⟩, hma⟩ := (ih a (by omega) ts (by omega) p rng1).2
          simp only [hma]
          obtain ⟨⟨b2, rngb⟩, hmb⟩ := (ih b (by omega) ts (by omega) p rnga).2
          simp only [hmb]
          exact ⟨_, rfl⟩
      | Log a b =>
        simp only [ExpNode.size] at hn hts
        rw [ExpNode.jitter]
        rcases hq : rng'.qpop with ⟨u, rng1⟩
        simp only [hq]
        by_cases hsw : u < p.binary_switch_prob
        · simp only [if_pos hsw]
          obtain ⟨⟨b2, rngb⟩, hmb⟩ := (ih b (by omega) ts (by omega) p rng1).2
          simp only [hmb]
          obtain ⟨⟨a2, rnga⟩, hma⟩ := (ih a (by omega) ts (by omega) p rngb).2
          simp only [hma]
          exact ⟨_, rfl⟩
        · simp only [if_neg hsw]
          obtain ⟨⟨a2, rnga⟩, hma⟩ := (ih a (by omega) ts (by omega) p rng1).2
          simp only [hma]
          obtain ⟨⟨b2, rngb⟩, hmb⟩ := (ih b (by omega) ts (by omega) p rnga).2
          simp only [hmb]
          exact ⟨_, rfl⟩
      | Sin a =>
        simp only [ExpNode.size] at hn hts
        rw [ExpNode.jitter]
        obtain ⟨⟨a2, rnga⟩, hma⟩ := (ih a (by omega) ts (by omega) p rng').2
        simp only [hma]
        exact ⟨_, rfl⟩
      | Var => exact ⟨_, by rw [ExpNode.jitter]⟩
      | Const c =>
        rw [ExpNode.jitter]
        rcases hq : rng'.qpop with ⟨u, rng1⟩
        simp only [hq]
        by_cases hc : u < p.const_mutation_prob
        · simp only [if_pos hc]
          exact ⟨_, rfl⟩
        · simp only [if_neg hc]
          exact ⟨_, rfl⟩
    refine ⟨hjit rng, ?_⟩
    rw [ExpNode.mutate]
    by_cases hlt : ts < 512
    · rcases hq : rng.qpop with ⟨u, rng1⟩
      simp only [if_pos hlt, hq]
      by_cases hrep : u < (p.mutate_replace_rate ^ n.size)⁻¹
      · simp only [if_pos hrep]
        rcases hg : rng1.npop with ⟨g, rng2⟩
        simp only [hg]
        obtain ⟨t, rng3, heq, -⟩ :=
          randomExpression_spec (min (g + 1) (512 - n.size)) (by omega) p rng2
        exact ⟨_, heq⟩
      · simp only [if_neg hrep]
        exact hjit rng1
    · simp only [if_neg hlt]
      exact hjit rng

theorem mutate_jitter_size_preserved :
    ∀ (k : ℕ) (n : ExpNode), n.size ≤ k →
      ∀ (ts : ℕ), 512 ≤ ts → ∀ (p : EvolutionParams) (rng : Rng),
        (∃ n2 rng2, ExpNode.jitter n ts p rng = some (n2, rng2) ∧ n2.size = n.size) ∧
        (∃ n2 rng2, ExpNode.mutate n ts p rng = some (n2, rng2) ∧ n2.size = n.size) := by
  intro k
  induction k with
  | zero =>
    intro n hn
    have := n.size_pos
    omega
  | succ k ih =>
    intro n hn ts hts p rng
    have hjit : ∀ rng', ∃ n2 rng2,
        ExpNode.jitter n ts p rng' = some (n2, rng2) ∧ n2.size = n.size := by
      intro rng'
      cases n with
      | Add a b =>
        simp only [ExpNode.size] at hn ⊢
        rw [ExpNode.jitter]
        obtain ⟨a2, rnga, hma, hsa⟩ := (ih a (by omega) ts hts p rng').2
        simp only [hma]
        obtain ⟨b2, rngb, hmb, hsb⟩ := (ih b (by omega) ts hts p rnga).2
        simp only [hmb]
        exact ⟨_, _, rfl, by simp [ExpNode.size, hsa, hsb]⟩
      | Mul a b =>
        simp only [ExpNode.size] at hn ⊢
        rw [ExpNode.jitter]
        obtain ⟨a2, rnga, hma, hsa⟩ := (ih a (by omega) ts hts p rng').2
        simp only [hma]
        obtain ⟨b2, rngb, hmb, hsb⟩ := (ih b (by omega) ts hts p rnga).2
        simp only [hmb]
        exact ⟨_, _, rfl, by simp [ExpNode.size, hsa, hsb]⟩
      | Exp a b =>
        simp only [ExpNode.size] at hn ⊢
        rw [ExpNode.jitter]
        rcases hq : rng'.qpop with ⟨u, rng1⟩
        simp only [hq]
        by_cases hsw : u < p.binary_switch_prob
        · simp only [if_pos hsw]
          obtain ⟨b2, rngb, hmb, hsb⟩ := (ih b (by omega) ts hts p rng1).2
          simp only [hmb]
          obtain ⟨a2, rnga, hma, hsa⟩ := (ih a (by omega) ts hts p rngb).2
          simp only [hma]
          exact ⟨_, _, rfl, by simp [ExpNode.size, hsa, hsb]; omega⟩
        · simp only [if_neg hsw]
          obtain ⟨a2, rnga, hma, hsa⟩ := (ih a (by omega) ts hts p rng1).2
          simp only [hma]
          obtain ⟨b2, rngb, hmb, hsb⟩ := (ih b (by omega) ts hts p rnga).2
          simp only [hmb]
          exact ⟨_, _, rfl, by simp [ExpNode.size, hsa, hsb]⟩
      | Log a b =>
        simp only [ExpNode.size] at hn ⊢
        rw [ExpNode.jitter]
        rcases hq : rng'.qpop with ⟨u, rng1⟩
        simp only [hq]
        by_cases hsw : u < p.binary_switch_prob
        · simp only [if_pos hsw]
          obtain ⟨b2, rngb, hmb, hsb⟩ := (ih b (by omega) ts hts p rng1).2
          simp only [hmb]
          obtain ⟨a2, rnga, hma, hsa⟩ := (ih a (by omega) ts hts p rngb).2
          simp only [hma]
          exact ⟨_, _, rfl, by simp [ExpNode.size, hsa, hsb]; omega⟩
        · simp only [if_neg hsw]
          obtain ⟨a2, rnga, hma, hsa⟩ := (ih a (by omega) ts hts p rng1).2
          simp only [hma]
          obtain ⟨b2, rngb, hmb, hsb⟩ := (ih b (by omega) ts hts p rnga).2
          simp only [hmb]
          exact ⟨_, _, rfl, by simp [ExpNode.size, hsa, hsb]⟩
      | Sin a =>
        simp only [ExpNode.size] at hn ⊢
        rw [ExpNode.jitter]
        obtain ⟨a2, rnga, hma, hsa⟩ := (ih a (by omega) ts hts p rng').2
        simp only [hma]
        exact ⟨_, _, rfl, by simp [ExpNode.size, hsa]⟩
      | Var => exact ⟨_, _, by rw [ExpNode.jitter], rfl⟩
      | Const c =>
        rw [ExpNode.jitter]
        rcases hq : rng'.qpop with ⟨u, rng1⟩
        simp only [hq]
        by_cases hc : u < p.const_mutation_prob
        · simp only [if_pos hc]
          exact ⟨_, _, rfl, rfl⟩
        · simp only [if_neg hc]
          exact ⟨_, _, rfl, rfl⟩
    refine ⟨hjit rng, ?_⟩
    rw [ExpNode.mutate]
    simp only [if_neg (by omega : ¬ ts < 512)]
    exact hjit rng

theorem treeMutate_isSome (t : ExpTree) (p : EvolutionParams) (rng : Rng) :
    ∃ r, ExpTree.mutate t p rng = some r := by
  obtain ⟨⟨n2, rng2⟩, h⟩ :=
    (mutate_jitter_isSome t.root.size t.root le_rfl t.size le_rfl p rng).2
  refine ⟨(⟨n2⟩, rng2), ?_⟩
  rw [ExpTree.mutate]
  simp only [h]

theorem fole_total (a b : Fl) : fole a b = true ∨ fole b a = true := by
  cases a <;> cases b <;> simp [fole]
  exact le_total _ _

theorem fole_trans {a b c : Fl} (h1 : fole a b = true) (h2 : fole b c = true) :
    fole a c = true := by
  cases a <;> cases b <;> cases c <;> simp_all [fole]
  exact le_trans h1 h2

theorem mutRun_spec (p : EvolutionParams) (parent : ExpTree) (thr : ℚ) (N : ℕ) :
    ∀ (fuelJ : ℕ) (acc : List ExpTree) (rng : Rng) (first : Bool),
      acc.length < N →
      ∃ acc2 rng2 full,
        mutRun p parent thr N fuelJ acc rng first = some (acc2, rng2, full) ∧
        acc.length ≤ acc2.length ∧ acc2.length ≤ N ∧
        (full = true ↔ acc2.length = N) ∧
        (first = true → 1 ≤ fuelJ → acc.length + 1 ≤ acc2.length) := by
  intro fuelJ
  induction fuelJ with
  | zero =>
    intro acc rng first h
    exact ⟨acc, rng, false, rfl, le_rfl, by omega, by simp; omega, by omega⟩
  | succ j ihj =>
    intro acc rng first h
    simp only [mutRun]
    cases first with
    | true =>
      obtain ⟨⟨m, rng2⟩, hm⟩ := treeMutate_isSome parent p rng
      simp only [hm, if_true]
      by_cases hfull : (acc ++ [m]).length = N
      · simp only [if_pos hfull]
        exact ⟨_, _, true, rfl, by simp, by omega, by simp [hfull], by simp⟩
      · simp only [if_neg hfull]
        obtain ⟨acc2, rng3, full, heq, hle, hub, hiff, -⟩ :=
          ihj (acc ++ [m]) rng2 false (by simp at hfull ⊢; omega)
        refine ⟨acc2, rng3, full, heq, ?_, hub, hiff, ?_⟩
        · simp at hle; omega
        · simp at hle; omega
    | false =>
      rcases hq : rng.qpop with ⟨u, rng1⟩
      simp only [hq]
      by_cases hu : u < thr
      · simp only [decide_eq_true hu, if_true]
        obtain ⟨⟨m, rng2⟩, hm⟩ := treeMutate_isSome parent p rng1
        simp only [Bool.false_eq_true, if_false, hm]
        by_cases hfull : (acc ++ [m]).length = N
        · simp only [if_pos hfull]
          exact ⟨_, _, true, rfl, by simp, by omega, by simp [hfull], by simp⟩
        · simp only [if_neg hfull]
          obtain ⟨acc2, rng3, full, heq, hle, hub, hiff, -⟩ :=
            ihj (acc ++ [m]) rng2 false (by simp at hfull ⊢; omega)
          refine ⟨acc2, rng3, full, heq, ?_, hub, hiff, by simp⟩
          simp at hle; omega
      · simp only [decide_eq_false hu, Bool.false_eq_true, if_false]
        exact ⟨acc, rng1, false, rfl, le_rfl, by omega, by simp; omega, by simp⟩

theorem mutSweep_spec (p : EvolutionParams) (pop : List ExpTree) (N : ℕ) :
    ∀ (iLeft : ℕ) (acc : List ExpTree) (rng : Rng),
      acc.length < N →
      ∃ acc2 rng2 full,
        mutSweep p pop N iLeft acc rng = some (acc2, rng2, full) ∧
        acc.length ≤ acc2.length ∧ acc2.length ≤ N ∧
        (full = true ↔ acc2.length = N) := by
  intro iLeft
  induction iLeft with
  | zero =>
    intro acc rng h
    exact ⟨acc, rng, false, rfl, le_rfl, by omega, by simp; omega⟩
  | succ i ihi =>
    intro acc rng h
    simp only [mutSweep]
    rcases hq : rng.qpop with ⟨u, rng1⟩
    simp only [hq]
    split
    · obtain ⟨acc1, rng2, full, heq, hle, hub, hiff, -⟩ :=
        mutRun_spec p (pop.getD (N - (i + 1)) dfltTree)
          ((p.repeated_mutation_rate ^ (N - (i + 1)))⁻¹) N N acc rng1 true h
      simp only [heq]
      cases full with
      | true => exact ⟨acc1, rng2, true, rfl, hle, hub, hiff⟩
      | false =>
        obtain ⟨acc2, rng3, full2, heq2, hle2, hub2, hiff2⟩ :=
          ihi acc1 rng2 (by simp at hiff; omega)
        exact ⟨acc2, rng3, full2, heq2, le_trans hle hle2, hub2, hiff2⟩
    · exact ihi acc rng1 h

theorem insSweep_spec (p : EvolutionParams) (N : ℕ) :
    ∀ (iLeft : ℕ) (acc : List ExpTree) (rng : Rng),
      acc.length < N →
      ∃ acc2 rng2 full,
        insSweep p N iLeft acc rng = some (acc2, rng2, full) ∧
        acc.length ≤ acc2.length ∧ acc2.length ≤ N ∧
        (full = true ↔ acc2.length = N) := by
  intro iLeft
  induction iLeft with
  | zero =>
    intro acc rng h
    exact ⟨acc, rng, false, rfl, le_rfl, by omega, by simp; omega⟩
  | succ i ihi =>
    intro acc rng h
    simp only [insSweep]
    rcases hq : rng.qpop with ⟨u, rng1⟩
    simp only [hq]
    split
    · rcases hg : rng1.npop with ⟨g, rng2⟩
      simp only [hg]
      obtain ⟨t, rng3, heq, -⟩ := randomExpression_spec (g + 1) (by omega) p rng2
      simp only [heq]
      by_cases hfull : (acc ++ [(⟨t⟩ : ExpTree)]).length = N
      · simp only [if_pos hfull]
        exact ⟨_, _, true, rfl, by simp, by omega, by simp [hfull]⟩
      · simp only [if_neg hfull]
        obtain ⟨acc2, rng4, full2, heq2, hle2, hub2, hiff2⟩ :=
          ihi (acc ++ [(⟨t⟩ : ExpTree)]) rng3 (by simp at hfull ⊢; omega)
        refine ⟨acc2, rng4, full2, heq2, ?_, hub2, hiff2⟩
        simp at hle2; omega
    · exact ihi acc rng1 h

theorem mutSweep_progress (p : EvolutionParams) (pop : List ExpTree) (N : ℕ) :
    ∀ (acc : List ExpTree) (rng : Rng),
      acc.length < N →
      ∃ acc2 rng2 full,
        mutSweep p pop N N acc rng = some (acc2, rng2, full) ∧
        acc.length + 1 ≤ acc2.length ∧ acc2.length ≤ N ∧
        (full = true ↔ acc2.length = N) := by
  intro acc rng h
  have hN : 1 ≤ N := by omega
  obtain ⟨N0, rfl⟩ : ∃ m, N = m + 1 := ⟨N - 1, by omega⟩
  simp only [mutSweep]
  rcases hq : rng.qpop with ⟨u, rng1⟩
  simp only [hq]
  have hu : u < (((N0 + 1 : ℕ) - ((N0 + 1 : ℕ) - (N0 + 1)) : ℕ) : ℚ) / ((N0 + 1 : ℕ) : ℚ) := by
    have hb := qpop_bounds rng
    rw [hq] at hb
    have h1 : ((N0 + 1 : ℕ) - ((N0 + 1 : ℕ) - (N0 + 1)) : ℕ) = N0 + 1 := by omega
    rw [h1]
    rw [div_self (by positivity)]
    exact hb.2
  rw [if_pos hu]
  obtain ⟨acc1, rng2, full, heq, hle, hub, hiff, hpr⟩ :=
    mutRun_spec p (pop.getD ((N0 + 1) - (N0 + 1)) dfltTree)
      ((p.repeated_mutation_rate ^ ((N0 + 1) - (N0 + 1)))⁻¹) (N0 + 1) (N0 + 1) acc rng1 true h
  simp only [heq]
  have hprog : acc.length + 1 ≤ acc1.length := hpr rfl (by omega)
  cases full with
  | true => exact ⟨acc1, rng2, true, rfl, by omega, hub, hiff⟩
  | false =>
    obtain ⟨acc2, rng3, full2, heq2, hle2, hub2, hiff2⟩ :=
      mutSweep_spec p pop (N0 + 1) N0 acc1 rng2 (by
        simp at hiff
        omega)
    exact ⟨acc2, rng3, full2, heq2, by omega, hub2, hiff2⟩

theorem fillLoop_spec (p : EvolutionParams) (pop : List ExpTree) (N : ℕ) :
    ∀ (fuel : ℕ) (acc : List ExpTree) (rng : Rng),
      1 ≤ acc.length → acc.length ≤ N → N < acc.length + fuel →
      ∃ acc2 rng2, fillLoop p pop N fuel acc rng = some (acc2, rng2) ∧
        acc2.length = N := by
  intro fuel
  induction fuel with
  | zero =>
    intro acc rng h1 h2 h3
    omega
  | succ f ihf =>
    intro acc rng h1 h2 h3
    simp only [fillLoop]
    by_cases hdone : N ≤ acc.length
    · simp only [if_pos hdone]
      exact ⟨acc, rng, rfl, by omega⟩
    · simp only [if_neg hdone]
      obtain ⟨acc1, rng1, full1, heq1, hle1, hub1, hiff1⟩ :=
        mutSweep_progress p pop N acc rng (by omega)
      simp only [heq1]
      cases full1 with
      | true => exact ⟨acc1, rng1, rfl, by simp at hiff1; omega⟩
      | false =>
        obtain ⟨acc2, rng2, full2, heq2, hle2, hub2, hiff2⟩ :=
          insSweep_spec p N N acc1 rng1 (by simp at hiff1; omega)
        simp only [heq2]
        cases full2 with
        | true => exact ⟨acc2, rng2, rfl, by simp at hiff2; omega⟩
        | false =>
          obtain ⟨acc3, rng3, heq3, hlen3⟩ :=
            ihf acc2 rng2 (by omega) (by omega) (by omega)
          exact ⟨acc3, rng3, heq3, hlen3⟩

theorem sortPop_length (l : List ExpTree) (data : List (Fl × Fl)) :
    (sortPop l data).length = l.length :=
  (List.perm_insertionSort _ l).length_eq

theorem sortPop_sorted (l : List ExpTree) (data : List (Fl × Fl)) :
    List.Sorted (fun a b => fole (a.fitness data) (b.fitness data) = true)
      (sortPop l data) := by
  haveI : IsTotal ExpTree
      (fun a b => fole (ExpTree.fitness a data) (ExpTree.fitness b data) = true) :=
    ⟨fun a b => fole_total _ _⟩
  haveI : IsTrans ExpTree
      (fun a b => fole (ExpTree.fitness a data) (ExpTree.fitness b data) = true) :=
    ⟨fun _ _ _ h1 h2 => fole_trans h1 h2⟩
  exact List.sorted_insertionSort _ l

theorem stepOnce_spec (e : Evolve) (rng : Rng) (h : e.pop ≠ []) :
    ∃ e2 rng2, stepOnce e rng = some (e2, rng2) ∧
      e2.pop.length = e.pop.length ∧ e2.data = e.data ∧ e2.params = e.params ∧
      List.Sorted (fun a b => fole (a.fitness e.data) (b.fitness e.data) = true)
        e2.pop := by
  rcases hpop : e.pop with _ | ⟨best, rest⟩
  · exact absurd hpop h
  · obtain ⟨filled, rng1, hfill, hlen⟩ :=
      fillLoop_spec e.params e.pop e.pop.length e.pop.length [best] rng
        (by simp) (by simp [hpop]) (by simp [hpop])
    rw [stepOnce]
    rw [hpop] at hfill ⊢
    simp only [hfill]
    refine ⟨_, _, rfl, ?_, rfl, rfl, ?_⟩
    · simp only [sortPop_length, List.length_map, hlen, hpop]
    · exact sortPop_sorted _ _

theorem buildPop_spec (p : EvolutionParams) :
    ∀ (k : ℕ) (rng : Rng),
      ∃ l rng2, buildPop p k rng = some (l, rng2) ∧ l.length = k := by
  intro k
  induction k with
  | zero => exact fun rng => ⟨[], rng, rfl, rfl⟩
  | succ k ihk =>
    intro rng
    simp only [buildPop]
    rcases hg : rng.npop with ⟨g, rng1⟩
    simp only [hg]
    obtain ⟨t, rng2, heq, -⟩ := randomExpression_spec (g + 1) (by omega) p rng1
    simp only [heq]
    obtain ⟨l, rng3, heq3, hlen3⟩ := ihk rng2
    simp only [heq3]
    exact ⟨_, rng3, rfl, by simp [hlen3]⟩

theorem evolveNew_spec (data : List (Fl × Fl)) (p : EvolutionParams) (rng : Rng) :
    ∃ e rng2, evolveNew data p rng = some (e, rng2) ∧
      e.pop.length = natRound p.population_num ∧ e.data = data ∧ e.params = p ∧
      List.Sorted (fun a b => fole (a.fitness data) (b.fitness data) = true)
        e.pop := by
  obtain ⟨l, rng1, heq, hlen⟩ := buildPop_spec p (natRound p.population_num) rng
  rw [evolveNew]
  simp only [heq]
  exact ⟨_, rng1, rfl, by simp [sortPop_length, hlen], rfl, rfl, sortPop_sorted _ _⟩

theorem sinDefault_size (s : ℕ) : (sinDefault (s + 1)).size = s + 1 := by
  induction s with
  | zero => rfl
  | succ s ih => simp only [sinDefault, ExpNode.size, ih]

theorem randomExpression_defaultNs :
    ∀ (s : ℕ), 1 ≤ s → s ≤ 512 → ∀ (p : EvolutionParams) (qs cs : List ℚ),
      randomExpression s p ⟨qs, [], cs⟩ = some (sinDefault s, ⟨qs, [], cs⟩) := by
  intro s
  induction s using Nat.strong_induction_on with
  | _ s ih =>
    intro h1 h2 p qs cs
    have hmin : min s 512 = s := by omega
    rw [randomExpression]
    by_cases hs1 : s = 1
    · subst hs1
      norm_num [Rng.npop, sinDefault]
    · by_cases hs2 : s = 2
      · subst hs2
        have : (⟨qs, [], cs⟩ : Rng).npop = (0, ⟨qs, [], cs⟩) := rfl
        simp only [hmin, dif_neg (by omega : ¬ (2 : ℕ) = 0), dif_neg (by omega : ¬ (2 : ℕ) = 1),
          dif_pos rfl, this]
        rw [ih 1 (by omega) (by omega) (by omega) p qs cs]
        rfl
      · have h3 : 3 ≤ s := by omega
        have : (⟨qs, [], cs⟩ : Rng).npop = (0, ⟨qs, [], cs⟩) := rfl
        simp only [hmin, dif_neg (by omega : ¬ s = 0), dif_neg hs1, dif_neg hs2, this]
        rw [if_pos trivial]
        rw [ih (s - 1) (by omega) (by omega) (by omega) p qs cs]
        obtain ⟨s0, rfl⟩ : ∃ m, s = m + 2 := ⟨s - 2, by omega⟩
        simp only [sinDefault]
        rfl

/-! ## Claim theorems -/

/-- C1 (amended): `ExpTree::fitness` always equals the sum over the
samples of `|eval(xᵢ) − yᵢ|` (with the boundary-substituted tree `eval`)
plus the node count.  There is no `SIZE_LIMIT` guard: the residual sum is
computed, and an ordinary finite value is returned, for trees of every
size. -/
theorem C1_fitness_formula (t : ExpTree) (data : List (Fl × Fl)) :
    t.fitness data = fadd (residualSum t data) (.num (t.size : ℚ)) := by
  simp [ExpTree.fitness, residualSum, List.foldl_map]

/-- C1 (counterexample): a 513-node tree (`Sin` applied 512 times to
`Const 0`), one sample `(0, 0)`.  The claim says `fitness` returns `+inf`
(or `f32::MAX`) immediately because `513 > SIZE_LIMIT`; the code computes
the residual sum and returns the plain value `513`. -/
theorem C1_no_guard_counterexample :
    512 < (⟨sinChain 512⟩ : ExpTree).size ∧
    (⟨sinChain 512⟩ : ExpTree).fitness [(.num 0, .num 0)] = .num 513 ∧
    Fl.num 513 ≠ Fl.inf ∧ Fl.num 513 ≠ .num f32max := by
  have hs : (sinChain 512).size = 513 := sinChain_size 512
  have he : (sinChain 512).eval (.num 0) = .num 0 := sinChain_eval 512
  refine ⟨by simp [ExpTree.size, hs], ?_, by decide, by with_unfolding_all decide⟩
  simp [ExpTree.fitness, ExpTree.eval, ExpTree.size, hs, he, Fl.isFinite, fsub, fabs,
    fadd, fzero]

/-- C2 (counterexample): for `n = Add(Log(Const 1, Const 1), Const 5)` at
`x = 0`, the sub-evaluation `1.log(1) = 0/0 = NaN` is non-finite.  Under
the claimed per-node substitution the `Log` node would contribute `0` and
the tree would evaluate to `5`; the code propagates the non-finite value
through `Add` and the boundary substitution turns it into `0`. -/
theorem C2_substitution_counterexample :
    specEvalTree ⟨.Add (.Log (.Const (.num 1)) (.Const (.num 1))) (.Const (.num 5))⟩
      (.num 0) = .num 5 ∧
    ExpTree.eval ⟨.Add (.Log (.Const (.num 1)) (.Const (.num 1))) (.Const (.num 5))⟩
      (.num 0) = .num 0 ∧
    (Fl.num 5 : Fl) ≠ .num 0 := by
  refine ⟨by with_unfolding_all rfl, by with_unfolding_all rfl, by with_unfolding_all decide⟩

/-- C2 (amended): no finiteness substitution happens inside
`ExpNode::eval`; the only substitution is the one at the tree boundary
(`ExpTree::eval`), and a non-finite sub-result propagates upward through
`Add`, `Mul` and `Sin` (for `Pow`/`Log` the code likewise substitutes
nothing; IEEE itself may produce a finite value there). -/
theorem C2_boundary_substitution :
    (∀ (t : ExpTree) (x : Fl),
        t.eval x = if (t.root.eval x).isFinite then t.root.eval x else .num 0) ∧
    (∀ (a b : ExpNode) (x : Fl), a.eval x = Fl.inf →
        (ExpNode.Add a b).eval x = Fl.inf) ∧
    (∀ (a b : ExpNode) (x : Fl), a.eval x = Fl.inf →
        (ExpNode.Mul a b).eval x = Fl.inf) ∧
    (∀ (a : ExpNode) (x : Fl), a.eval x = Fl.inf →
        (ExpNode.Sin a).eval x = Fl.inf) := by
  refine ⟨fun t x => rfl, fun a b x h => ?_, fun a b x h => ?_, fun a x h => ?_⟩
  · simp [ExpNode.eval, h, fadd, fzero]
  · simp [ExpNode.eval, h, fmul, fone]
  · simp [ExpNode.eval, h, fsin]

/-- Witness for `C2_boundary_substitution`: the non-finite value of
`Log(Const 1, Const 1)` propagates through an `Add` node. -/
theorem C2_boundary_substitution_witness :
    ExpNode.eval (.Log (.Const (.num 1)) (.Const (.num 1))) (.num 0) = Fl.inf ∧
    ExpNode.eval (.Add (.Log (.Const (.num 1)) (.Const (.num 1))) (.Const (.num 5)))
      (.num 0) = Fl.inf :=
  ⟨by with_unfolding_all rfl,
    C2_boundary_substitution.2.1 _ (.Const (.num 5)) (.num 0) (by with_unfolding_all rfl)⟩

/-- C5 (counterexample): `eval(Log(Const 4, Const 2))` is Rust
`4.log(2) = ln 4 / ln 2 = 2` (exact in `f32`), not the claimed
`log₄(2) = ln 2 / ln 4 = 1/2`. -/
theorem C5_log_convention_counterexample :
    ExpNode.eval (.Log (.Const (.num 4)) (.Const (.num 2))) (.num 0) = .num 2 ∧
    specLogEval (.Const (.num 4)) (.Const (.num 2)) (.num 0) = .num (1/2) ∧
    (Fl.num 2 : Fl) ≠ .num (1/2) := by
  refine ⟨by with_unfolding_all rfl, by with_unfolding_all rfl, by with_unfolding_all decide⟩

/-- C5 (amended): evaluation of `Log(a, b)` is Rust `a.log(b)`, the
logarithm of `eval a` in base `eval b` (`ln(eval a) / ln(eval b)`), and
the simplifier's constant folding uses the same convention and argument
order, so for round-stable constants the folded constant evaluates to the
same value as the unfolded node. -/
theorem C5_log_convention :
    (∀ (a b : ExpNode) (x : Fl),
        (ExpNode.Log a b).eval x = flog (a.eval x) (b.eval x)) ∧
    (∀ c1 c2 : Fl, (ExpNode.Log (.Const c1) (.Const c2)).simplify
        = .Const (flog (roundConst c1) (roundConst c2))) ∧
    (∀ (c1 c2 x : Fl), roundConst c1 = c1 → roundConst c2 = c2 →
        ((ExpNode.Log (.Const c1) (.Const c2)).simplify).eval x
          = (ExpNode.Log (.Const c1) (.Const c2)).eval x) := by
  refine ⟨fun a b x => rfl, fun c1 c2 => rfl, fun c1 c2 x h1 h2 => ?_⟩
  show (ExpNode.Const (flog (roundConst c1) (roundConst c2))).eval x = _
  rw [h1, h2]
  rfl

/-- Witness for `C5_log_convention`: at the round-stable constants 4 and
2 the folded `Log` constant evaluates like the unfolded node. -/
theorem C5_log_convention_witness :
    roundConst (.num 4) = .num 4 ∧ roundConst (.num 2) = .num 2 ∧
    ((ExpNode.Log (.Const (.num 4)) (.Const (.num 2))).simplify).eval (.num 0)
      = (ExpNode.Log (.Const (.num 4)) (.Const (.num 2))).eval (.num 0) :=
  ⟨by with_unfolding_all rfl, by with_unfolding_all rfl,
    C5_log_convention.2.2 (.num 4) (.num 2) (.num 0) (by with_unfolding_all rfl)
      (by with_unfolding_all rfl)⟩

/-- C6 (counterexample): for `t = Add(Const(1/2), Const(1/2 + 2⁻²³))`
(both constants and their sum exact `f32` values), one `simplify` folds
to `Const(1 + 2⁻²³)`; a second `simplify` rounds that constant (it is
within `f32::EPSILON` of 1) to `Const 1`, so `simplify` is not
idempotent. -/
theorem C6_idempotence_counterexample :
    ExpNode.simplify (.Add (.Const (.num (1/2))) (.Const (.num (1/2 + 1/2^23))))
      = .Const (.num (1 + 1/2^23)) ∧
    ExpNode.simplify (ExpNode.simplify
        (.Add (.Const (.num (1/2))) (.Const (.num (1/2 + 1/2^23)))))
      = .Const (.num 1) ∧
    (ExpNode.Const (.num (1 + 1/2^23)) : ExpNode) ≠ .Const (.num 1) := by
  refine ⟨by with_unfolding_all rfl, by with_unfolding_all rfl, by with_unfolding_all decide⟩

/-- C6 (amended): `simplify` is not idempotent in general (constant
folding can produce a fresh constant that a second pass rounds); it is
idempotent on expressions containing no `Const` node, where it is the
identity. -/
theorem C6_idempotent_on_const_free (t : ExpNode) (h : t.constFree = true) :
    t.simplify.simplify = t.simplify := by
  rw [ExpNode.simplify_constFree_id t h, ExpNode.simplify_constFree_id t h]

/-- Witness for `C6_idempotent_on_const_free` at `Sin(Var)`. -/
theorem C6_idempotent_on_const_free_witness :
    (ExpNode.Sin .Var).constFree = true ∧
    (ExpNode.Sin .Var).simplify.simplify = (ExpNode.Sin .Var).simplify :=
  ⟨by decide, C6_idempotent_on_const_free _ (by decide)⟩

/-- C8 (counterexample): `Pow(Const 0, Const −1)` constant-folds to
`Const(powf(0, −1)) = Const(+inf)` — the raw `powf` value, with no
finite-or-0 substitution (the claim says the fold yields `Const 0`
here). -/
theorem C8_pow_fold_counterexample :
    ExpNode.simplify (.Exp (.Const (.num 0)) (.Const (.num (-1)))) = .Const Fl.inf ∧
    (ExpNode.Const Fl.inf : ExpNode) ≠ .Const (.num 0) := by
  refine ⟨by with_unfolding_all rfl, by decide⟩

/-- C8 (amended): the `Pow` rules are: fold `Pow(Const a, Const b)` to
`Const(a^b)` with the raw `powf` value (no finite-or-0 substitution);
`Pow(t, Const ≈1) → t`; `Pow(t, Const ≈0) → Const 0` (not `Const 1`); the
unit/zero rules fire only when the exponent is the constant — with a
constant base and non-constant exponent the node is only rebuilt. -/
theorem C8_pow_rules :
    (∀ c1 c2 : Fl, (ExpNode.Exp (.Const c1) (.Const c2)).simplify
        = .Const (fpow (roundConst c1) (roundConst c2))) ∧
    (∀ (t : ExpNode) (c : Fl), t.simplify.isConstB = false →
        relEqFl (roundConst c) (.num 1) = true →
        (ExpNode.Exp t (.Const c)).simplify = t.simplify) ∧
    (∀ (t : ExpNode) (c : Fl), t.simplify.isConstB = false →
        relEqFl (roundConst c) (.num 1) = false →
        relEqFl (roundConst c) (.num 0) = true →
        (ExpNode.Exp t (.Const c)).simplify = .Const (.num 0)) ∧
    (∀ (t : ExpNode) (c : Fl), t.simplify.isConstB = false →
        (ExpNode.Exp (.Const c) t).simplify
          = .Exp (.Const (roundConst c)) t.simplify) := by
  refine ⟨fun c1 c2 => rfl, fun t c hc h1 => ?_, fun t c hc h1 h0 => ?_,
    fun t c hc => ?_⟩
  · rw [ExpNode.simplify]
    cases ht : t.simplify <;> simp_all [ExpNode.isConstB, ExpNode.simplify_Const, h1]
  · rw [ExpNode.simplify]
    cases ht : t.simplify <;> simp_all [ExpNode.isConstB, ExpNode.simplify_Const, h1, h0]
  · rw [ExpNode.simplify]
    cases ht : t.simplify <;> simp_all [ExpNode.isConstB, ExpNode.simplify_Const]

/-- Witness for `C8_pow_rules`: `Pow(Var, Const 1)` reduces to `Var`. -/
theorem C8_pow_rules_witness :
    (ExpNode.Var).simplify.isConstB = false ∧
    relEqFl (roundConst (.num 1)) (.num 1) = true ∧
    (ExpNode.Exp .Var (.Const (.num 1))).simplify = (ExpNode.Var).simplify :=
  ⟨by with_unfolding_all rfl, by with_unfolding_all rfl,
    C8_pow_rules.2.1 .Var (.num 1) (by with_unfolding_all rfl)
      (by with_unfolding_all rfl)⟩

/-- C10: `simplify` never increases the node count (each rule removes
nodes or rebuilds the same shape from simplified children). -/
theorem C10_simplify_size (t : ExpNode) : t.simplify.size ≤ t.size :=
  ExpNode.simplify_size_le t

/-- C7 (amended): for every requested size ≥ 1, `random_expression`
returns a tree whose node count is exactly `min(size, SIZE_LIMIT)`, and at
size 1 the tree is a nullary node (`Var` or a `Const`); at size 0 the
function panics instead (see the counterexample). -/
theorem C7_random_expression_size :
    (∀ (s : ℕ) (p : EvolutionParams) (rng : Rng), 1 ≤ s →
        ∃ t rng2, randomExpression s p rng = some (t, rng2) ∧
          t.size = min s 512) ∧
    (∀ (p : EvolutionParams) (rng : Rng),
        ∃ t rng2, randomExpression 1 p rng = some (t, rng2) ∧
          (t = .Var ∨ ∃ c, t = .Const c)) := by
  constructor
  · exact fun s p rng hs => randomExpression_spec s hs p rng
  · intro p rng
    rw [randomExpression]
    simp only [Nat.reduceLeDiff, min_eq_left, dif_neg (by omega : ¬ min 1 512 = 0),
      dif_pos (by omega : min 1 512 = 1)]
    rcases hnp : rng.npop with ⟨k, rng1⟩
    simp only [hnp]
    by_cases hk : k % 2 = 0
    · simp only [if_pos hk]
      exact ⟨_, _, rfl, Or.inl rfl⟩
    · simp only [if_neg hk]
      rcases hc : rng1.cpop with ⟨c, rng2⟩
      simp only [hc]
      exact ⟨_, _, rfl, Or.inr ⟨_, rfl⟩⟩

/-- Witness for `C7_random_expression_size` at requested size 3. -/
theorem C7_random_expression_size_witness :
    (1 : ℕ) ≤ 3 ∧
    ∃ t rng2, randomExpression 3 paramsC3 (⟨[], [], []⟩ : Rng) = some (t, rng2) ∧
      t.size = min 3 512 :=
  ⟨by decide, C7_random_expression_size.1 3 paramsC3 ⟨[], [], []⟩ (by decide)⟩

/-- C7 (counterexample): at requested size 0 the source panics ("invalid
size for new expression") instead of returning a nullary node. -/
theorem C7_zero_size_counterexample :
    randomExpression 0 paramsC3 (⟨[], [], []⟩ : Rng) = none := by
  rw [randomExpression]
  simp

/-- C4 (amended): `simplify` keeps every tree of size ≤ 512 within the
limit (it never increases size), and when the enclosing tree already has
size ≥ `SIZE_LIMIT` (replacement suppressed) `mutate` preserves the node
count exactly; when replacement is possible, the mutated tree can exceed
`SIZE_LIMIT` (see the counterexample). -/
theorem C4_mutation_size :
    (∀ t : ExpNode, t.size ≤ 512 → t.simplify.size ≤ 512) ∧
    (∀ (n : ExpNode) (ts : ℕ) (p : EvolutionParams) (rng : Rng), 512 ≤ ts →
        ∃ n2 rng2, ExpNode.mutate n ts p rng = some (n2, rng2) ∧
          n2.size = n.size) := by
  constructor
  · exact fun t h => le_trans (ExpNode.simplify_size_le t) h
  · intro n ts p rng h
    exact (mutate_jitter_size_preserved n.size n le_rfl ts h p rng).2

/-- Witness for `C4_mutation_size` at `Var` inside a size-512 tree. -/
theorem C4_mutation_size_witness :
    (ExpNode.Var).size ≤ 512 ∧ (512 : ℕ) ≤ 512 ∧
    (∃ n2 rng2, ExpNode.mutate .Var 512 paramsC4 (⟨[], [], []⟩ : Rng)
        = some (n2, rng2) ∧ n2.size = ExpNode.Var.size) :=
  ⟨by decide, le_rfl, C4_mutation_size.2 .Var 512 paramsC4 ⟨[], [], []⟩ le_rfl⟩

/-- C4 (counterexample): starting from the 3-node tree `Var + Var`
(size ≤ 512) with valid params, one `mutate` call produces a tree of size
513 > `SIZE_LIMIT`: the root falls through to jitter, and the first `Var`
child is replaced by a fresh subtree whose budget `SIZE_LIMIT − 1 = 511`
only accounts for the child itself, not the rest of the tree. -/
theorem C4_size_limit_counterexample :
    paramsC4.is_valid = true ∧
    treeC4.size = 3 ∧
    ((ExpNode.mutate treeC4 3 paramsC4 rngC4).map fun mr => mr.1.size)
      = some 513 ∧ 512 < 513 := by
  have hsz : (sinDefault 511).size = 511 := sinDefault_size 510
  refine ⟨by with_unfolding_all rfl, rfl, ?_, by decide⟩
  rw [ExpNode.mutate]
  norm_num [treeC4, rngC4, paramsC4, Rng.qpop, Rng.npop, ExpNode.size]
  rw [ExpNode.jitter]
  rw [ExpNode.mutate]
  norm_num [Rng.qpop, Rng.npop, ExpNode.size, paramsC4]
  rw [randomExpression_defaultNs 511 (by omega) (by omega) _ [1/2] []]
  norm_num [ExpNode.mutate, ExpNode.jitter, Rng.qpop, Rng.npop, ExpNode.size, hsz]

/-- C3 (amended): `Evolve::new` produces exactly
`population_num.round()` members sorted ascending by fitness (in the
`OrderedFloat` order), and every generation step preserves the population
count and re-establishes sortedness.  The best fitness is NOT monotone
(see the counterexample): the elite is re-simplified each generation,
which can change — and worsen — its fitness. -/
theorem C3_population_invariants :
    (∀ (data : List (Fl × Fl)) (p : EvolutionParams) (rng : Rng),
        ∃ e rng2, evolveNew data p rng = some (e, rng2) ∧
          e.pop.length = natRound p.population_num ∧
          List.Sorted (fun a b => fole (a.fitness data) (b.fitness data) = true)
            e.pop) ∧
    (∀ (e : Evolve) (rng : Rng), e.pop ≠ [] →
        ∃ e2 rng2, stepOnce e rng = some (e2, rng2) ∧
          e2.pop.length = e.pop.length ∧
          List.Sorted (fun a b => fole (a.fitness e.data) (b.fitness e.data) = true)
            e2.pop) := by
  constructor
  · intro data p rng
    obtain ⟨e, rng2, heq, hlen, -, -, hsorted⟩ := evolveNew_spec data p rng
    exact ⟨e, rng2, heq, hlen, hsorted⟩
  · intro e rng h
    obtain ⟨e2, rng2, heq, hlen, -, -, hsorted⟩ := stepOnce_spec e rng h
    exact ⟨e2, rng2, heq, hlen, hsorted⟩

/-- Witness for `C3_population_invariants`: one step from a singleton
population. -/
theorem C3_population_invariants_witness :
    (⟨[dfltTree], dataC3, paramsC3, 0, 0⟩ : Evolve).pop ≠ [] ∧
    (∃ e2 rng2,
      stepOnce (⟨[dfltTree], dataC3, paramsC3, 0, 0⟩ : Evolve) (⟨[], [], []⟩ : Rng)
        = some (e2, rng2) ∧
      e2.pop.length = (⟨[dfltTree], dataC3, paramsC3, 0, 0⟩ : Evolve).pop.length ∧
      List.Sorted (fun a b => fole (a.fitness dataC3) (b.fitness dataC3) = true)
        e2.pop) :=
  ⟨by simp, C3_population_invariants.2 ⟨[dfltTree], dataC3, paramsC3, 0, 0⟩
    ⟨[], [], []⟩ (by simp)⟩

/-- C3 (counterexample): best fitness is not monotone across generations.
With valid params (`population_num = 2`), the sample `(0, 1 + 2⁻²³)` and
the oracle draws below, `Evolve::new` produces the population
`[Const(1 + 2⁻²³), Const(1 + 2⁻²³)]` (each `Add(Const ½, Const(½ + 2⁻²³))`
built by `random_expression` and constant-folded by the constructor's
`simplify`; all values exact in `f32`), whose best fitness is `0 + 1 = 1`.
One generation step keeps the elite and one faithful mutant, but the
step's re-simplification rounds `1 + 2⁻²³` (within `f32::EPSILON` of 1)
to `Const 1`, whose fitness is `2⁻²³ + 1 > 1`: the new index-0 fitness is
strictly worse than the old one (`flt old new = true`). -/
theorem C3_best_fitness_counterexample :
    paramsC3.is_valid = true ∧
    natRound paramsC3.population_num = 2 ∧
    ((evolveNew dataC3 paramsC3 rngC3new).map fun er =>
        (er.1.pop.length,
          (stepOnce er.1 rngC3step).map fun sr =>
            flt er.1.best_fitness sr.1.best_fitness))
      = some (2, some true) := by
  have h1 : ∀ (ns : List ℕ) (c : ℚ) (cs : List ℚ),
      randomExpression 1 paramsC3 ⟨[], 1 :: ns, c :: cs⟩
        = some (.Const (.num c), ⟨[], ns, cs⟩) := by
    intro ns c cs
    rw [randomExpression]
    norm_num [Rng.npop, Rng.cpop]
  have h3 : ∀ (ns : List ℕ) (c1 c2 : ℚ) (cs : List ℚ),
      randomExpression 3 paramsC3 ⟨[], 1 :: 0 :: 1 :: 1 :: ns, c1 :: c2 :: cs⟩
        = some (.Add (.Const (.num c1)) (.Const (.num c2)), ⟨[], ns, cs⟩) := by
    intro ns c1 c2 cs
    rw [randomExpression]
    norm_num [Rng.npop, h1]
  have hsimp : (⟨.Add (.Const (.num (1/2))) (.Const (.num (4194305/8388608)))⟩ :
      ExpTree).simplify = ⟨.Const (.num (8388609/8388608))⟩ := by
    with_unfolding_all rfl
  have hbuild : buildPop paramsC3 2 rngC3new
      = some ([⟨.Const (.num (8388609/8388608))⟩, ⟨.Const (.num (8388609/8388608))⟩],
          ⟨[], [], []⟩) := by
    norm_num [buildPop, rngC3new, Rng.npop, h3, hsimp]
  have hnr : natRound paramsC3.population_num = 2 := by with_unfolding_all rfl
  have hsort : sortPop [(⟨.Const (.num (8388609/8388608))⟩ : ExpTree),
      ⟨.Const (.num (8388609/8388608))⟩] dataC3
      = [⟨.Const (.num (8388609/8388608))⟩, ⟨.Const (.num (8388609/8388608))⟩] := by
    with_unfolding_all rfl
  have hnew : evolveNew dataC3 paramsC3 rngC3new
      = some (⟨[⟨.Const (.num (8388609/8388608))⟩, ⟨.Const (.num (8388609/8388608))⟩],
          dataC3, paramsC3, 0, 0⟩, ⟨[], [], []⟩) := by
    rw [evolveNew, hnr, hbuild]
    simp only [hsort]
  have hmut : ExpTree.mutate ⟨.Const (.num (8388609/8388608))⟩ paramsC3
      ⟨[3/4, 1/2], [], []⟩ = some (⟨.Const (.num (8388609/8388608))⟩, ⟨[], [], []⟩) := by
    rw [ExpTree.mutate, ExpNode.mutate]
    norm_num [ExpTree.size, ExpNode.size, Rng.qpop, paramsC3]
    rw [ExpNode.jitter]
    norm_num [Rng.qpop]
  have hfill : fillLoop paramsC3
      [(⟨.Const (.num (8388609/8388608))⟩ : ExpTree), ⟨.Const (.num (8388609/8388608))⟩] 2 2
      [⟨.Const (.num (8388609/8388608))⟩] rngC3step
      = some ([⟨.Const (.num (8388609/8388608))⟩, ⟨.Const (.num (8388609/8388608))⟩],
          ⟨[], [], []⟩) := by
    norm_num [fillLoop, mutSweep, mutRun, Rng.qpop, rngC3step, hmut]
  have hs1 : (⟨.Const (.num (8388609/8388608))⟩ : ExpTree).simplify
      = ⟨.Const (.num 1)⟩ := by with_unfolding_all rfl
  have hsort2 : sortPop [(⟨.Const (.num 1)⟩ : ExpTree), ⟨.Const (.num 1)⟩] dataC3
      = [⟨.Const (.num 1)⟩, ⟨.Const (.num 1)⟩] := by with_unfolding_all rfl
  have hflt : flt ((⟨.Const (.num 1)⟩ : ExpTree).fitness dataC3)
      ((⟨.Const (.num (8388609/8388608))⟩ : ExpTree).fitness dataC3) = false := by
    with_unfolding_all rfl
  have hstep : stepOnce ⟨[⟨.Const (.num (8388609/8388608))⟩,
      ⟨.Const (.num (8388609/8388608))⟩], dataC3, paramsC3, 0, 0⟩ rngC3step
      = some (⟨[⟨.Const (.num 1)⟩, ⟨.Const (.num 1)⟩], dataC3, paramsC3, 1, 0⟩,
          ⟨[], [], []⟩) := by
    rw [stepOnce]
    norm_num [hfill, hs1, hsort2, hflt]
  refine ⟨by with_unfolding_all rfl, hnr, ?_⟩
  rw [hnew]
  simp only [Option.map_some']
  rw [hstep]
  simp only [Option.map_some']
  refine congrArg some (Prod.ext rfl ?_)
  simp only []
  refine congrArg some ?_
  with_unfolding_all rfl

/-- C9: the meta fitness of an entity equals the spec's description: the
mean over all 16 `(function, run)` pairs (4 fixed targets × 4 runs) of
`best_fitness × 10 000 + iterations_to_best`, each from a fresh inner
evolver over the integer samples in `[−5, 5]` — with or without the
spec's "substitute 0 for non-finite target values", because all four
targets are finite at the 11 sample points. -/
theorem C9_meta_fitness (p : EvolutionParams) (rng : Rng) :
    MetaEntity.calculate_fitness p rng = specMetaFitness p rng := by
  have hdata : ∀ f ∈ runsList, sampleDataOf f = specSampleDataOf f := by
    intro f hf
    have hmem : f ∈ FUNCTIONS := by
      simp only [runsList, List.mem_flatMap] at hf
      obtain ⟨g, hg, hfg⟩ := hf
      rwa [List.eq_of_mem_replicate hfg]
    simp only [FUNCTIONS, List.mem_cons, List.not_mem_nil, or_false] at hmem
    rcases hmem with h | h | h | h <;> subst h <;> with_unfolding_all rfl
  have hsum : ∀ (fs : List (Fl → Fl)),
      (∀ f ∈ fs, sampleDataOf f = specSampleDataOf f) →
      ∀ (acc : Fl) (rng' : Rng),
        scoreSumWith sampleDataOf p fs acc rng'
          = scoreSumWith specSampleDataOf p fs acc rng' := by
    intro fs
    induction fs with
    | nil =>
      intro _ acc rng'
      rfl
    | cons f fs ih =>
      intro h acc rng'
      simp only [scoreSumWith]
      rw [h f (List.mem_cons_self f fs)]
      cases runScoreWith (specSampleDataOf f) p rng' with
      | none => rfl
      | some v => exact ih (fun g hg => h g (List.mem_cons_of_mem f hg)) _ _
  unfold MetaEntity.calculate_fitness specMetaFitness
  rw [hsum runsList hdata fzero rng]
